import Mathlib

/-!
Verification of the BCV matched-filter overlap core of the BankEfficiency
program (BankEfficiency.c).  Machine floating point (REAL4/REAL8) is modelled
by the real numbers; C arrays are modelled as total functions from bin index
to value; in-place loops are modelled by structural recursion performing the
same sequence of pointwise updates.
-/

open Real

/-- C99 atan2(y, x): the angle of the point (x, y), with range [-pi, pi].
This models the libm call used for thetav in LALWaveOverlapBCV. -/
noncomputable def atan2 (y x : ℝ) : ℝ :=
  if 0 < x then Real.arctan (y / x)
  else if x < 0 then
    (if 0 ≤ y then Real.arctan (y / x) + π else Real.arctan (y / x) - π)
  else
    (if 0 < y then π / 2 else if y < 0 then -(π / 2) else 0)

/-- V0 at one sample, from the four correlation values (LALWaveOverlapBCV). -/
def V0of (x1 x2 x3 x4 : ℝ) : ℝ := x1 * x1 + x2 * x2 + x3 * x3 + x4 * x4

/-- V1 at one sample, from the four correlation values (LALWaveOverlapBCV). -/
def V1of (x1 x2 x3 x4 : ℝ) : ℝ := x1 * x1 + x3 * x3 - x2 * x2 - x4 * x4

/-- V2 at one sample, from the four correlation values (LALWaveOverlapBCV). -/
def V2of (x1 x2 x3 x4 : ℝ) : ℝ := 2 * (x1 * x2 + x3 * x4)

/-- The unconstrained SNR at one sample:
rhoUnconstraint = sqrt((V0 + sqrt(V1^2 + V2^2))/2) (LALWaveOverlapBCV). -/
noncomputable def rhoUnconstraintFormula (V0 V1 V2 : ℝ) : ℝ :=
  Real.sqrt ((V0 + Real.sqrt (V1 * V1 + V2 * V2)) / 2)

/-- The second sector's constrained SNR: sqrt((V0 + V1)/2). -/
noncomputable def rhoSector2 (V0 V1 : ℝ) : ℝ := Real.sqrt ((V0 + V1) / 2)

/-- The third sector's constrained SNR:
sqrt((V0 + V1*cos(2*thetab) + V2*sin(2*thetab))/2). -/
noncomputable def rhoSector3 (thetab V0 V1 V2 : ℝ) : ℝ :=
  Real.sqrt ((V0 + V1 * Real.cos (2 * thetab) + V2 * Real.sin (2 * thetab)) / 2)

/-- The boundary angle of LALWaveOverlapBCV:
thetab = atan(-(a11*alphaMax)/(a22 + a21*alphaMax)). -/
noncomputable def thetabOf (a11 a21 a22 alphaMax : ℝ) : ℝ :=
  Real.arctan (-(a11 * alphaMax) / (a22 + a21 * alphaMax))

/-- The sector decision of LALWaveOverlapBCV assigning the constrained SNR at
one sample.  The two outer branches follow the sign of thetab; the final
else-branch of each is the code's fatal path (fprintf to stderr followed by
abort), modelled as an error value. -/
noncomputable def sectorRhoConstraint (thetab thetav V0 V1 V2 : ℝ) :
    Except String ℝ :=
  if 0 ≤ thetab then
    if 0 ≤ thetav ∧ thetav ≤ 2 * thetab then
      Except.ok (rhoUnconstraintFormula V0 V1 V2)
    else if thetab - π ≤ thetav ∧ thetav < 0 then
      Except.ok (rhoSector2 V0 V1)
    else if (2 * thetab < thetav ∧ thetav ≤ π + 1 / 10000) ∨
        (-π - 1 / 10000 ≤ thetav ∧ thetav < -π + thetab) then
      Except.ok (rhoSector3 thetab V0 V1 V2)
    else Except.error "must not enter here"
  else
    if 2 * thetab ≤ thetav ∧ thetav ≤ 0 then
      Except.ok (rhoUnconstraintFormula V0 V1 V2)
    else if 0 < thetav ∧ thetav ≤ π + thetab then
      Except.ok (rhoSector2 V0 V1)
    else if (-π - 1 / 10000 ≤ thetav ∧ thetav < 2 * thetab) ∨
        (π + thetab ≤ thetav ∧ thetav ≤ π + 1 / 10000) then
      Except.ok (rhoSector3 thetab V0 V1 V2)
    else Except.error "must not enter here"

lemma arctan_nonneg_of_nonneg {z : ℝ} (hz : 0 ≤ z) : 0 ≤ Real.arctan z := by
  have h := Real.arctan_strictMono.monotone hz
  simpa [Real.arctan_zero] using h

lemma arctan_nonpos_of_nonpos {z : ℝ} (hz : z ≤ 0) : Real.arctan z ≤ 0 := by
  have h := Real.arctan_strictMono.monotone hz
  simpa [Real.arctan_zero] using h

lemma neg_pi_le_atan2 (y x : ℝ) : -π ≤ atan2 y x := by
  have h1 := Real.arctan_lt_pi_div_two (y / x)
  have h2 := Real.neg_pi_div_two_lt_arctan (y / x)
  have hπ := Real.pi_pos
  unfold atan2
  split_ifs with hx hx' hy
  · linarith
  · linarith
  · have : 0 ≤ Real.arctan (y / x) :=
      arctan_nonneg_of_nonneg
        (le_of_lt (div_pos_of_neg_of_neg (by linarith) hx'))
    linarith
  · linarith
  · linarith
  · linarith

lemma atan2_le_pi (y x : ℝ) : atan2 y x ≤ π := by
  have h1 := Real.arctan_lt_pi_div_two (y / x)
  have h2 := Real.neg_pi_div_two_lt_arctan (y / x)
  have hπ := Real.pi_pos
  unfold atan2
  split_ifs with hx hx' hy
  · linarith
  · have : Real.arctan (y / x) ≤ 0 :=
      arctan_nonpos_of_nonpos (div_nonpos_iff.mpr (Or.inl ⟨hy, le_of_lt hx'⟩))
    linarith
  · linarith
  · linarith
  · linarith
  · linarith

lemma sectorRhoConstraint_ok (thetab thetav V0 V1 V2 : ℝ)
    (hlo : -π ≤ thetav) (hhi : thetav ≤ π) :
    ∃ r, sectorRhoConstraint thetab thetav V0 V1 V2 = Except.ok r ∧
      (r = rhoUnconstraintFormula V0 V1 V2 ∨ r = rhoSector2 V0 V1 ∨
        r = rhoSector3 thetab V0 V1 V2) := by
  have hπ := Real.pi_pos
  unfold sectorRhoConstraint
  split_ifs with hb hA hB hC hA hB hC
  · exact ⟨_, rfl, Or.inl rfl⟩
  · exact ⟨_, rfl, Or.inr (Or.inl rfl)⟩
  · exact ⟨_, rfl, Or.inr (Or.inr rfl)⟩
  · exfalso
    push_neg at hA hB hC
    have hd2 : -π + thetab ≤ thetav := hC.2 (by linarith)
    have hb0 : 0 ≤ thetav := hB (by linarith)
    have ha2 : 2 * thetab < thetav := hA hb0
    have hd1 : π + 1 / 10000 < thetav := hC.1 ha2
    linarith
  · exact ⟨_, rfl, Or.inl rfl⟩
  · exact ⟨_, rfl, Or.inr (Or.inl rfl)⟩
  · exact ⟨_, rfl, Or.inr (Or.inr rfl)⟩
  · exfalso
    push_neg at hA hB hC
    have hd1 : 2 * thetab ≤ thetav := hC.1 (by linarith)
    have ha0 : 0 < thetav := hA hd1
    have hb2 : π + thetab < thetav := hB ha0
    have hd2 : π + 1 / 10000 < thetav := hC.2 (by linarith)
    linarith

/-- C1: with thetav = atan2(V2, V1) and thetab the boundary angle, every
sample lands in one of the three angular sectors, so the constrained SNR is
always one of the three closed-form values and the fatal fallback branch of
the sector decision in LALWaveOverlapBCV (an error value here, a loud abort
in the code) is never reached. -/
theorem waveOverlapBCV_sector_exhaustive
    (a11 a21 a22 alphaMax V0 V1 V2 : ℝ) :
    ∃ r, sectorRhoConstraint (thetabOf a11 a21 a22 alphaMax) (atan2 V2 V1)
        V0 V1 V2 = Except.ok r ∧
      (r = rhoUnconstraintFormula V0 V1 V2 ∨ r = rhoSector2 V0 V1 ∨
        r = rhoSector3 (thetabOf a11 a21 a22 alphaMax) V0 V1 V2) :=
  sectorRhoConstraint_ok _ _ _ _ _ (neg_pi_le_atan2 V2 V1) (atan2_le_pi V2 V1)

lemma linear_combo_le_sqrt (V1 V2 c s : ℝ) (hcs : s ^ 2 + c ^ 2 = 1) :
    V1 * c + V2 * s ≤ Real.sqrt (V1 * V1 + V2 * V2) := by
  apply Real.le_sqrt_of_sq_le
  nlinarith [sq_nonneg (V1 * s - V2 * c), sq_nonneg (V1 * c + V2 * s)]

lemma rhoSector2_le (V0 V1 V2 : ℝ) :
    rhoSector2 V0 V1 ≤ rhoUnconstraintFormula V0 V1 V2 := by
  unfold rhoSector2 rhoUnconstraintFormula
  apply Real.sqrt_le_sqrt
  have h : V1 ≤ Real.sqrt (V1 * V1 + V2 * V2) := by
    have := linear_combo_le_sqrt V1 V2 1 0 (by norm_num)
    simpa using this
  linarith

lemma rhoSector3_le (thetab V0 V1 V2 : ℝ) :
    rhoSector3 thetab V0 V1 V2 ≤ rhoUnconstraintFormula V0 V1 V2 := by
  unfold rhoSector3 rhoUnconstraintFormula
  apply Real.sqrt_le_sqrt
  have h := linear_combo_le_sqrt V1 V2 (Real.cos (2 * thetab))
    (Real.sin (2 * thetab)) (Real.sin_sq_add_cos_sq (2 * thetab))
  linarith

/-- C2: whichever of the three sector formulas the sector decision selects,
the constrained SNR is at most the unconstrained SNR
sqrt((V0 + sqrt(V1^2 + V2^2))/2) computed from the same four correlation
values x1..x4. -/
theorem rhoConstraint_le_rhoUnconstraint
    (x1 x2 x3 x4 thetab r : ℝ)
    (h : sectorRhoConstraint thetab (atan2 (V2of x1 x2 x3 x4) (V1of x1 x2 x3 x4))
        (V0of x1 x2 x3 x4) (V1of x1 x2 x3 x4) (V2of x1 x2 x3 x4) = Except.ok r) :
    r ≤ rhoUnconstraintFormula (V0of x1 x2 x3 x4) (V1of x1 x2 x3 x4)
        (V2of x1 x2 x3 x4) := by
  rcases sectorRhoConstraint_ok thetab
      (atan2 (V2of x1 x2 x3 x4) (V1of x1 x2 x3 x4))
      (V0of x1 x2 x3 x4) (V1of x1 x2 x3 x4) (V2of x1 x2 x3 x4)
      (neg_pi_le_atan2 _ _) (atan2_le_pi _ _) with ⟨r', hr', hcase⟩
  rw [h] at hr'
  simp only [Except.ok.injEq] at hr'
  subst hr'
  rcases hcase with h1 | h2 | h3
  · exact le_of_eq h1
  · exact h2 ▸ rhoSector2_le _ _ _
  · exact h3 ▸ rhoSector3_le _ _ _ _

/-- Witness for C2 at a concrete sample: x = (1, -1, 0, 0) gives V = (2, 0, -2),
thetav = -pi/2; with thetab = 0 the second sector is selected. -/
theorem rhoConstraint_le_rhoUnconstraint_witness :
    rhoSector2 (V0of 1 (-1) 0 0) (V1of 1 (-1) 0 0) ≤
      rhoUnconstraintFormula (V0of 1 (-1) 0 0) (V1of 1 (-1) 0 0)
        (V2of 1 (-1) 0 0) := by
  have hπ := Real.pi_pos
  apply rhoConstraint_le_rhoUnconstraint 1 (-1) 0 0 0
  have hv : atan2 (V2of 1 (-1) 0 0) (V1of 1 (-1) 0 0) = -(π / 2) := by
    unfold atan2 V2of V1of
    norm_num
  rw [hv]
  unfold sectorRhoConstraint
  rw [if_pos le_rfl, if_neg (by intro hc; nlinarith [hc.1]),
    if_pos (by constructor <;> nlinarith)]

/-- The swap loop of LALGetOrthogonalFilterBCV2 after its first c iterations
(iteration c processes index i = c, performing temp = d[i]; d[i] = -d[n-i];
d[n-i] = temp). -/
def orthoIter (n : ℕ) (f : ℕ → ℝ) : ℕ → ℕ → ℝ
  | 0 => f
  | c + 1 =>
    Function.update
      (Function.update (orthoIter n f c) (c + 1)
        (-(orthoIter n f c (n - (c + 1)))))
      (n - (c + 1)) (orthoIter n f c (c + 1))

/-- The Orthogonalizer: for i in [1, n/2), swap data[i] and -data[n-i]. -/
def LALGetOrthogonalFilterBCV2 (n : ℕ) (f : ℕ → ℝ) : ℕ → ℝ :=
  orthoIter n f (n / 2 - 1)

lemma orthoIter_apply (n : ℕ) (f : ℕ → ℝ) :
    ∀ c, 2 * c < n → ∀ j, orthoIter n f c j =
      if 1 ≤ j ∧ j ≤ c then -f (n - j)
      else if n - c ≤ j ∧ j < n then f (n - j)
      else f j := by
  intro c
  induction c with
  | zero =>
    intro _ j
    show f j = _
    split_ifs with h1 h2
    · omega
    · omega
    · rfl
  | succ c ih =>
    intro hc j
    have hc' : 2 * c < n := by omega
    show Function.update
        (Function.update (orthoIter n f c) (c + 1)
          (-(orthoIter n f c (n - (c + 1)))))
        (n - (c + 1)) (orthoIter n f c (c + 1)) j = _
    rcases eq_or_ne j (n - (c + 1)) with hj | hj
    · subst hj
      rw [Function.update_same]
      rw [ih hc' (c + 1)]
      rw [if_neg (by omega), if_neg (by omega)]
      rw [if_neg (by omega), if_pos (by omega)]
      congr 1
      omega
    · rw [Function.update_noteq hj]
      rcases eq_or_ne j (c + 1) with hj' | hj'
      · subst hj'
        rw [Function.update_same]
        rw [ih hc' (n - (c + 1))]
        rw [if_neg (by omega), if_neg (by omega)]
        rw [if_pos (by omega)]
      · rw [Function.update_noteq hj']
        rw [ih hc' j]
        by_cases h1 : 1 ≤ j ∧ j ≤ c
        · rw [if_pos h1, if_pos (by omega)]
        · rw [if_neg h1]
          by_cases h2 : n - c ≤ j ∧ j < n
          · rw [if_pos h2, if_neg (by omega), if_pos (by omega)]
          · rw [if_neg h2, if_neg (by omega), if_neg (by omega)]

lemma orthogonalFilter_apply (m : ℕ) (f : ℕ → ℝ) (j : ℕ) (hm : 1 ≤ m) :
    LALGetOrthogonalFilterBCV2 (2 * m) f j =
      if 1 ≤ j ∧ j ≤ m - 1 then -f (2 * m - j)
      else if m + 1 ≤ j ∧ j < 2 * m then f (2 * m - j)
      else f j := by
  have hdiv : (2 * m) / 2 - 1 = m - 1 := by omega
  unfold LALGetOrthogonalFilterBCV2
  rw [hdiv, orthoIter_apply (2 * m) f (m - 1) (by omega) j]
  by_cases h1 : 1 ≤ j ∧ j ≤ m - 1
  · rw [if_pos h1, if_pos h1]
  · rw [if_neg h1, if_neg h1]
    by_cases h2 : 2 * m - (m - 1) ≤ j ∧ j < 2 * m
    · rw [if_pos h2, if_pos (by omega)]
    · rw [if_neg h2, if_neg (by omega)]

/-- C5: applying the Orthogonalizer twice restores the filter up to sign at
every index of an even-length filter: entries 0 and n/2 are returned exactly,
every other entry is negated, so each entry is reproduced up to sign. -/
theorem orthogonalFilter_involution (m : ℕ) (f : ℕ → ℝ) (j : ℕ)
    (hm : 1 ≤ m) (hj : j < 2 * m) :
    (LALGetOrthogonalFilterBCV2 (2 * m)
        (LALGetOrthogonalFilterBCV2 (2 * m) f) j =
      if j = 0 ∨ j = m then f j else -f j) ∧
    |LALGetOrthogonalFilterBCV2 (2 * m)
        (LALGetOrthogonalFilterBCV2 (2 * m) f) j| = |f j| := by
  have key : LALGetOrthogonalFilterBCV2 (2 * m)
      (LALGetOrthogonalFilterBCV2 (2 * m) f) j =
      if j = 0 ∨ j = m then f j else -f j := by
    rw [orthogonalFilter_apply m _ j hm]
    by_cases h1 : 1 ≤ j ∧ j ≤ m - 1
    · rw [if_pos h1]
      rw [orthogonalFilter_apply m f (2 * m - j) hm]
      rw [if_neg (by omega), if_pos (by omega)]
      rw [if_neg (by omega)]
      congr 2
      omega
    · rw [if_neg h1]
      by_cases h2 : m + 1 ≤ j ∧ j < 2 * m
      · rw [if_pos h2]
        rw [orthogonalFilter_apply m f (2 * m - j) hm]
        rw [if_pos (by omega), if_neg (by omega)]
        congr 2
        omega
      · rw [if_neg h2]
        rw [orthogonalFilter_apply m f j hm]
        rw [if_neg h1, if_neg h2, if_pos (by omega)]
  refine ⟨key, ?_⟩
  rw [key]
  split_ifs
  · rfl
  · exact abs_neg (f j)

/-- Witness for C5 at m = 2 (filter length 4), f i = i, j = 1. -/
theorem orthogonalFilter_involution_witness :
    (LALGetOrthogonalFilterBCV2 (2 * 2)
        (LALGetOrthogonalFilterBCV2 (2 * 2) (fun i => (i : ℝ))) 1 =
      if 1 = 0 ∨ 1 = 2 then ((1 : ℕ) : ℝ) else -((1 : ℕ) : ℝ)) ∧
    |LALGetOrthogonalFilterBCV2 (2 * 2)
        (LALGetOrthogonalFilterBCV2 (2 * 2) (fun i => (i : ℝ))) 1| =
      |((1 : ℕ) : ℝ)| :=
  orthogonalFilter_involution 2 (fun i => (i : ℝ)) 1 (by norm_num) (by norm_num)

/-- The effect of LALWaveOverlapBCV on its filter buffers together with the
four correlation series it computes.  The correlation engine
(LALInspiralWaveCorrelate, an external collaborator) is a parameter mapping
the current contents of the filter buffer to a correlation series. -/
structure BCVCorrState where
  x1 : ℕ → ℝ
  x2 : ℕ → ℝ
  x3 : ℕ → ℝ
  x4 : ℕ → ℝ
  filterBCV1 : ℕ → ℝ
  filterBCV2 : ℕ → ℝ

/-- Filter usage of LALWaveOverlapBCV: x1 = correlate against FilterBCV1,
then FilterBCV1 is orthogonalized in place and x3 is the correlation against
the result; likewise x2, x4 for FilterBCV2.  When extraFinalPrinting and
printBestOverlap are both set, the final printing block orthogonalizes each
filter buffer once more. -/
def waveOverlapBCVCorr (correlate : (ℕ → ℝ) → ℕ → ℝ) (n : ℕ)
    (printBestOverlap extraFinalPrinting : Bool) (f1 f2 : ℕ → ℝ) :
    BCVCorrState :=
  { x1 := correlate f1
    x2 := correlate f2
    x3 := correlate (LALGetOrthogonalFilterBCV2 n f1)
    x4 := correlate (LALGetOrthogonalFilterBCV2 n f2)
    filterBCV1 :=
      if extraFinalPrinting && printBestOverlap then
        LALGetOrthogonalFilterBCV2 n (LALGetOrthogonalFilterBCV2 n f1)
      else LALGetOrthogonalFilterBCV2 n f1
    filterBCV2 :=
      if extraFinalPrinting && printBestOverlap then
        LALGetOrthogonalFilterBCV2 n (LALGetOrthogonalFilterBCV2 n f2)
      else LALGetOrthogonalFilterBCV2 n f2 }

/-- C10: with extra final printing disabled, LALWaveOverlapBCV leaves in the
FilterBCV1 and FilterBCV2 buffers the orthogonalized companions of the
filters passed in (LALGetOrthogonalFilterBCV2 applied exactly once), while
x1 and x2 are the correlations of the original filters and x3 and x4 those
of the orthogonalized ones. -/
theorem waveOverlapBCV_filter_mutation (correlate : (ℕ → ℝ) → ℕ → ℝ)
    (n : ℕ) (printBestOverlap : Bool) (f1 f2 : ℕ → ℝ) :
    (waveOverlapBCVCorr correlate n printBestOverlap false f1 f2).filterBCV1 =
        LALGetOrthogonalFilterBCV2 n f1 ∧
    (waveOverlapBCVCorr correlate n printBestOverlap false f1 f2).filterBCV2 =
        LALGetOrthogonalFilterBCV2 n f2 ∧
    (waveOverlapBCVCorr correlate n printBestOverlap false f1 f2).x1 =
        correlate f1 ∧
    (waveOverlapBCVCorr correlate n printBestOverlap false f1 f2).x3 =
        correlate (LALGetOrthogonalFilterBCV2 n f1) := by
  refine ⟨?_, ?_, rfl, rfl⟩ <;> simp [waveOverlapBCVCorr]

/-- LALCreateVectorFreqPower: fills a vector of length n with element 0 set
to 0 and element i in [1, n) set to (i*df)^(a/b), df = tSampling/n/2.
Indices outside the vector are read as 0. -/
noncomputable def LALCreateVectorFreqPower (n : ℕ) (tSampling : ℝ)
    (a b : ℤ) (i : ℕ) : ℝ :=
  if i = 0 then 0
  else if i < n then
    ((i : ℝ) * (tSampling / (n : ℝ) / 2)) ^ ((a : ℝ) / (b : ℝ))
  else 0

/-- A power vector as allocated and filled by BECreatePowerVector: given the
signal length N it has length N/2 and is filled by LALCreateVectorFreqPower
(whose own n is then N/2). -/
noncomputable def powerVectorOfLength (N : ℕ) (tSampling : ℝ) (a b : ℤ) :
    ℕ → ℝ :=
  LALCreateVectorFreqPower (N / 2) tSampling a b

/-- C9 counterexample: with signal length N = 4, sampling rate 8 and exponent
1/1, element 1 of the builder's output is (1*(8/2/2))^1 = 2, not
(1*(8/4/2))^1 = 1 as the claimed deltaF = samplingRate/N/2 predicts. -/
theorem freqPower_deltaF_counterexample :
    powerVectorOfLength 4 8 1 1 1 = 2 ∧
      (2 : ℝ) ≠ ((1 : ℝ) * ((8 : ℝ) / 4 / 2)) ^ ((1 : ℝ) / (1 : ℝ)) := by
  constructor
  · unfold powerVectorOfLength LALCreateVectorFreqPower
    norm_num
  · norm_num

/-- C9 (amended): element 0 of the power vector is 0 and element i in
[1, N/2) equals (i*deltaF)^(a/b) with deltaF = samplingRate/(N/2)/2, which is
samplingRate/N for even N; the builder is a pure function, so two runs with
identical arguments agree. -/
theorem freqPowerVector_spec (N : ℕ) (tSampling : ℝ) (a b : ℤ) (i : ℕ)
    (hi1 : 1 ≤ i) (hi2 : i < N / 2) :
    powerVectorOfLength N tSampling a b 0 = 0 ∧
    powerVectorOfLength N tSampling a b i =
      ((i : ℝ) * (tSampling / ((N / 2 : ℕ) : ℝ) / 2)) ^ ((a : ℝ) / (b : ℝ)) ∧
    powerVectorOfLength N tSampling a b =
      powerVectorOfLength N tSampling a b := by
  refine ⟨?_, ?_, rfl⟩
  · unfold powerVectorOfLength LALCreateVectorFreqPower
    simp
  · unfold powerVectorOfLength LALCreateVectorFreqPower
    rw [if_neg (by omega), if_pos hi2]

/-- Witness for C9 (amended) at N = 8, samplingRate = 16, exponent -1/2,
i = 1. -/
theorem freqPowerVector_spec_witness :
    powerVectorOfLength 8 16 (-1) 2 0 = 0 ∧
    powerVectorOfLength 8 16 (-1) 2 1 =
      ((1 : ℕ) : ℝ) * ((16 : ℝ) / ((8 / 2 : ℕ) : ℝ) / 2) ^
        (((-1 : ℤ) : ℝ) / ((2 : ℤ) : ℝ)) ∧
    powerVectorOfLength 8 16 (-1) 2 = powerVectorOfLength 8 16 (-1) 2 := by
  have h := freqPowerVector_spec 8 16 (-1) 2 1 (by norm_num) (by norm_num)
  simpa using h

/-- The four frequency power-law vectors built once by BECreatePowerVector. -/
structure BEPowerVector where
  fm2_3 : ℕ → ℝ
  fm5_3 : ℕ → ℝ
  fm7_6 : ℕ → ℝ
  fm1_2 : ℕ → ℝ

/-- The three moment coefficient arrays of LALCreateMomentVector. -/
structure BEMoments where
  a11 : ℕ → ℝ
  a21 : ℕ → ℝ
  a22 : ℕ → ℝ

/-- The first loop of LALCreateFilters after its first m iterations:
iteration m zeroes index m - 1 (the C loop runs i = 0 .. kMin-2). -/
def setZeroIter (f : ℕ → ℝ) : ℕ → ℕ → ℝ
  | 0 => f
  | m + 1 => Function.update (setZeroIter f m) m 0

/-- The second loop of LALCreateFilters after its first c iterations:
iteration c processes bin i = kMin + c, writing A i at index i and B i at
index n - i. -/
def fillIter (A B : ℕ → ℝ) (n kMin : ℕ) (f : ℕ → ℝ) : ℕ → ℕ → ℝ
  | 0 => f
  | c + 1 =>
    Function.update
      (Function.update (fillIter A B n kMin f c) (kMin + c) (A (kMin + c)))
      (n - (kMin + c)) (B (kMin + c))

/-- LALCreateFilters: builds the two BCV filters over the reused buffers
old1 and old2 of length n.  Bins [0, kMin-1) are zeroed; bins [kMin, n/2)
and their mirrors n-i receive the amplitude- and phase-modulated values,
with the moment coefficients read at bin kMax. -/
noncomputable def LALCreateFilters (powerVector : BEPowerVector)
    (moments : BEMoments) (n kMin kMax : ℕ) (psi0 psi3 : ℝ)
    (old1 old2 : ℕ → ℝ) : (ℕ → ℝ) × (ℕ → ℝ) :=
  let a11 := moments.a11 kMax
  let a22 := moments.a22 kMax
  let a21 := moments.a21 kMax
  let phaseOf := fun i =>
    psi0 * powerVector.fm5_3 i + psi3 * powerVector.fm2_3 i
  let amp1 := fun i => a11 * powerVector.fm7_6 i
  let amp2 := fun i =>
    a21 * powerVector.fm7_6 i + a22 * powerVector.fm1_2 i
  (fillIter (fun i => amp1 i * Real.cos (phaseOf i))
      (fun i => -amp1 i * Real.sin (phaseOf i)) n kMin
      (setZeroIter old1 (kMin - 1)) (n / 2 - kMin),
    fillIter (fun i => amp2 i * Real.cos (phaseOf i))
      (fun i => -amp2 i * Real.sin (phaseOf i)) n kMin
      (setZeroIter old2 (kMin - 1)) (n / 2 - kMin))

lemma setZeroIter_apply (f : ℕ → ℝ) :
    ∀ m j, setZeroIter f m j = if j < m then 0 else f j := by
  intro m
  induction m with
  | zero =>
    intro j
    show f j = _
    rw [if_neg (by omega)]
  | succ m ih =>
    intro j
    show Function.update (setZeroIter f m) m 0 j = _
    rcases eq_or_ne j m with hj | hj
    · subst hj
      rw [Function.update_same, if_pos (by omega)]
    · rw [Function.update_noteq hj, ih j]
      by_cases h : j < m
      · rw [if_pos h, if_pos (by omega)]
      · rw [if_neg h, if_neg (by omega)]

lemma fillIter_apply_low (A B : ℕ → ℝ) (n kMin : ℕ) (f : ℕ → ℝ) :
    ∀ c, (kMin + c ≤ n / 2 ∨ c = 0) → ∀ j, j < kMin →
      fillIter A B n kMin f c j = f j := by
  intro c
  induction c with
  | zero => intro _ j _; rfl
  | succ c ih =>
    intro hc j hj
    have hc' : kMin + (c + 1) ≤ n / 2 := by
      rcases hc with h | h
      · exact h
      · omega
    show Function.update
        (Function.update (fillIter A B n kMin f c) (kMin + c) (A (kMin + c)))
        (n - (kMin + c)) (B (kMin + c)) j = f j
    rw [Function.update_noteq (by omega), Function.update_noteq (by omega)]
    exact ih (Or.inl (by omega)) j hj

lemma createFilters_apply_below (powerVector : BEPowerVector)
    (moments : BEMoments) (n kMin kMax : ℕ) (psi0 psi3 : ℝ)
    (old1 old2 : ℕ → ℝ) (j : ℕ) (hj : j < kMin) :
    (LALCreateFilters powerVector moments n kMin kMax psi0 psi3
        old1 old2).1 j = setZeroIter old1 (kMin - 1) j ∧
    (LALCreateFilters powerVector moments n kMin kMax psi0 psi3
        old1 old2).2 j = setZeroIter old2 (kMin - 1) j := by
  unfold LALCreateFilters
  constructor
  · exact fillIter_apply_low _ _ n kMin _ (n / 2 - kMin) (by omega) j hj
  · exact fillIter_apply_low _ _ n kMin _ (n / 2 - kMin) (by omega) j hj

/-- C3 counterexample: with filter length 8, kMin = 2 and reused buffers
holding the stale value 7 everywhere, bin kMin - 1 = 1 of the first output
filter still holds 7 after LALCreateFilters, so it is not zero at every bin
strictly below kMin. -/
theorem createFilters_stale_bin_counterexample :
    (LALCreateFilters ⟨fun _ => 0, fun _ => 0, fun _ => 0, fun _ => 0⟩
        ⟨fun _ => 0, fun _ => 0, fun _ => 0⟩ 8 2 4 0 0
        (fun _ => 7) (fun _ => 7)).1 1 = 7 ∧ (7 : ℝ) ≠ 0 := by
  constructor
  · rw [(createFilters_apply_below _ _ 8 2 4 0 0 (fun _ => 7) (fun _ => 7) 1
      (by norm_num)).1]
    rw [setZeroIter_apply, if_neg (by norm_num)]
  · norm_num

/-- C3 (amended): for kMin >= 1, after LALCreateFilters both output filters
are zero at every bin strictly below kMin - 1 (the zeroing loop stops one
bin short of kMin, so bin kMin - 1 itself keeps the buffer's previous
content), regardless of the previous contents of the reused buffers. -/
theorem createFilters_zero_below_kMin_minus_one (powerVector : BEPowerVector)
    (moments : BEMoments) (n kMin kMax : ℕ) (psi0 psi3 : ℝ)
    (old1 old2 : ℕ → ℝ) (j : ℕ) (hk : 1 ≤ kMin) (hj : j < kMin - 1) :
    (LALCreateFilters powerVector moments n kMin kMax psi0 psi3
        old1 old2).1 j = 0 ∧
    (LALCreateFilters powerVector moments n kMin kMax psi0 psi3
        old1 old2).2 j = 0 := by
  have hcase : kMin + (n / 2 - kMin) ≤ n / 2 ∨ n / 2 - kMin = 0 := by omega
  constructor
  · show fillIter _ _ n kMin (setZeroIter old1 (kMin - 1)) (n / 2 - kMin) j = 0
    rw [fillIter_apply_low _ _ n kMin _ (n / 2 - kMin) hcase j (by omega)]
    rw [setZeroIter_apply, if_pos hj]
  · show fillIter _ _ n kMin (setZeroIter old2 (kMin - 1)) (n / 2 - kMin) j = 0
    rw [fillIter_apply_low _ _ n kMin _ (n / 2 - kMin) hcase j (by omega)]
    rw [setZeroIter_apply, if_pos hj]

/-- Witness for C3 (amended) at n = 8, kMin = 3, j = 1, buffers holding 7. -/
theorem createFilters_zero_below_kMin_minus_one_witness :
    (LALCreateFilters ⟨fun _ => 0, fun _ => 0, fun _ => 0, fun _ => 0⟩
        ⟨fun _ => 0, fun _ => 0, fun _ => 0⟩ 8 3 4 0 0
        (fun _ => 7) (fun _ => 7)).1 1 = 0 ∧
    (LALCreateFilters ⟨fun _ => 0, fun _ => 0, fun _ => 0, fun _ => 0⟩
        ⟨fun _ => 0, fun _ => 0, fun _ => 0⟩ 8 3 4 0 0
        (fun _ => 7) (fun _ => 7)).2 1 = 0 :=
  createFilters_zero_below_kMin_minus_one _ _ 8 3 4 0 0 _ _ 1
    (by norm_num) (by norm_num)

/-- The per-template best-overlap record (struct OverlapOutputIn): the
constrained sub-record (rhoMax, phase, alpha, rhoBin, freq, layer,
templateNumber) and the unconstrained sub-record (the U fields). -/
structure OverlapOutputIn where
  rhoMax : ℝ
  phase : ℝ
  alpha : ℝ
  rhoBin : ℤ
  freq : ℝ
  layer : ℤ
  templateNumber : ℤ
  rhoMaxU : ℝ
  phaseU : ℝ
  alphaU : ℝ
  rhoBinU : ℤ
  freqU : ℝ
  layerU : ℤ
  templateNumberU : ℤ

/-- KeepHighestValues: merge the candidate record resultThisTemplate into the
running best record, replacing each of the two sub-records when the
candidate's corresponding SNR strictly exceeds the current best's. -/
noncomputable def KeepHighestValues (resultThisTemplate resultBestTemplate :
    OverlapOutputIn) : OverlapOutputIn :=
  let afterC :=
    if resultThisTemplate.rhoMax > resultBestTemplate.rhoMax then
      { resultBestTemplate with
        rhoMax := resultThisTemplate.rhoMax
        phase := resultThisTemplate.phase
        alpha := resultThisTemplate.alpha
        rhoBin := resultThisTemplate.rhoBin
        freq := resultThisTemplate.freq
        layer := resultThisTemplate.layer
        templateNumber := resultThisTemplate.templateNumber }
    else resultBestTemplate
  if resultThisTemplate.rhoMaxU > afterC.rhoMaxU then
    { afterC with
      rhoMaxU := resultThisTemplate.rhoMaxU
      phaseU := resultThisTemplate.phaseU
      alphaU := resultThisTemplate.alphaU
      rhoBinU := resultThisTemplate.rhoBinU
      freqU := resultThisTemplate.freqU
      layerU := resultThisTemplate.layerU
      templateNumberU := resultThisTemplate.templateNumberU }
  else afterC

/-- C8: the merge replaces the constrained sub-record wholesale exactly when
the candidate's constrained SNR strictly exceeds the current best's, and
independently replaces the unconstrained sub-record wholesale exactly when
the candidate's unconstrained SNR strictly exceeds the current best's; a
sub-record whose SNR does not strictly improve is left entirely unchanged. -/
theorem keepHighestValues_spec (cand best : OverlapOutputIn) :
    ((KeepHighestValues cand best).rhoMax =
      if cand.rhoMax > best.rhoMax then cand.rhoMax else best.rhoMax) ∧
    ((KeepHighestValues cand best).phase =
      if cand.rhoMax > best.rhoMax then cand.phase else best.phase) ∧
    ((KeepHighestValues cand best).alpha =
      if cand.rhoMax > best.rhoMax then cand.alpha else best.alpha) ∧
    ((KeepHighestValues cand best).rhoBin =
      if cand.rhoMax > best.rhoMax then cand.rhoBin else best.rhoBin) ∧
    ((KeepHighestValues cand best).freq =
      if cand.rhoMax > best.rhoMax then cand.freq else best.freq) ∧
    ((KeepHighestValues cand best).layer =
      if cand.rhoMax > best.rhoMax then cand.layer else best.layer) ∧
    ((KeepHighestValues cand best).templateNumber =
      if cand.rhoMax > best.rhoMax then cand.templateNumber
      else best.templateNumber) ∧
    ((KeepHighestValues cand best).rhoMaxU =
      if cand.rhoMaxU > best.rhoMaxU then cand.rhoMaxU else best.rhoMaxU) ∧
    ((KeepHighestValues cand best).phaseU =
      if cand.rhoMaxU > best.rhoMaxU then cand.phaseU else best.phaseU) ∧
    ((KeepHighestValues cand best).alphaU =
      if cand.rhoMaxU > best.rhoMaxU then cand.alphaU else best.alphaU) ∧
    ((KeepHighestValues cand best).rhoBinU =
      if cand.rhoMaxU > best.rhoMaxU then cand.rhoBinU else best.rhoBinU) ∧
    ((KeepHighestValues cand best).freqU =
      if cand.rhoMaxU > best.rhoMaxU then cand.freqU else best.freqU) ∧
    ((KeepHighestValues cand best).layerU =
      if cand.rhoMaxU > best.rhoMaxU then cand.layerU else best.layerU) ∧
    ((KeepHighestValues cand best).templateNumberU =
      if cand.rhoMaxU > best.rhoMaxU then cand.templateNumberU
      else best.templateNumberU) := by
  by_cases h1 : cand.rhoMax > best.rhoMax <;>
    by_cases h2 : cand.rhoMaxU > best.rhoMaxU <;>
      simp [KeepHighestValues, h1, h2]

/-- Running state of LALCreateMomentVector: the three running moment sums and
the three coefficient arrays. -/
structure MomState where
  m3 : ℝ
  m5 : ℝ
  m7 : ℝ
  a11 : ℕ → ℝ
  a21 : ℕ → ℝ
  a22 : ℕ → ℝ

/-- One iteration of the accumulation loop of LALCreateMomentVector at bin k,
frequency f = f0 + k*deltaF: a zero-PSD bin is skipped; otherwise the three
running sums gain f^e / S(f) * deltaF / norm (e = -7/3, -5/3, -1) and the
coefficient arrays are written at k from the updated sums. -/
noncomputable def momStep (psd : ℕ → ℝ) (f0 deltaF norm : ℝ)
    (s : MomState) (k : ℕ) : MomState :=
  if psd k = 0 then s
  else
    let f := f0 + (k : ℝ) * deltaF
    let m7n := s.m7 + f ^ (-(7 / 3 : ℝ)) / psd k * deltaF / norm
    let m5n := s.m5 + f ^ (-(5 / 3 : ℝ)) / psd k * deltaF / norm
    let m3n := s.m3 + f ^ (-(1 : ℝ)) / psd k * deltaF / norm
    let a22v := 1 / Real.sqrt (m3n - m5n * m5n / m7n)
    { m3 := m3n
      m5 := m5n
      m7 := m7n
      a11 := Function.update s.a11 k (1 / Real.sqrt m7n)
      a21 := Function.update s.a21 k (-m5n / m7n * a22v)
      a22 := Function.update s.a22 k a22v }

/-- The accumulation loop of LALCreateMomentVector run over an explicit list
of bins. -/
noncomputable def momentsOverBins (psd : ℕ → ℝ) (f0 deltaF norm : ℝ)
    (bins : List ℕ) (s : MomState) : MomState :=
  bins.foldl (momStep psd f0 deltaF norm) s

/-- The state of LALCreateMomentVector before the accumulation loop: moments
zero, arrays calloc-initialised to zero with the first loop rewriting the
entries below the cutoff bin kMin to zero. -/
def momInit (kMin : ℕ) : MomState :=
  { m3 := 0
    m5 := 0
    m7 := 0
    a11 := setZeroIter (fun _ => 0) kMin
    a21 := setZeroIter (fun _ => 0) kMin
    a22 := setZeroIter (fun _ => 0) kMin }

/-- The moment computation from the cutoff bin kMin over c accumulation
bins. -/
noncomputable def momLoop (psd : ℕ → ℝ) (f0 deltaF norm : ℝ)
    (kMin c : ℕ) : MomState :=
  momentsOverBins psd f0 deltaF norm (List.range' kMin c) (momInit kMin)

/-- LALCreateMomentVector: kMin = floor((fLower - f0)/deltaF) and
kMax = floor((tSampling/2 - f0)/deltaF) are computed from the inputs,
norm = (1/4)*tSampling^2, and the accumulation runs over [kMin, kMax).
(The C function also sizes the three arrays to length/2; array extent is
implicit in the function model.) -/
noncomputable def LALCreateMomentVector (psd : ℕ → ℝ)
    (f0 deltaF fLower tSampling : ℝ) : MomState :=
  momLoop psd f0 deltaF (1 / 4 * (tSampling * tSampling))
    (Int.toNat (Int.floor ((fLower - f0) / deltaF)))
    (Int.toNat (Int.floor ((tSampling / 2 - f0) / deltaF)) -
      Int.toNat (Int.floor ((fLower - f0) / deltaF)))

/-- The cumulative noise-weighted frequency-power sum with exponent e over a
list of bins, weight deltaF/norm, zero-PSD bins contributing nothing. -/
noncomputable def momSum (psd : ℕ → ℝ) (f0 deltaF norm e : ℝ) :
    List ℕ → ℝ
  | [] => 0
  | k :: l =>
    (if psd k = 0 then 0
      else (f0 + (k : ℝ) * deltaF) ^ e / psd k * deltaF / norm) +
      momSum psd f0 deltaF norm e l

/-- The cumulative m7 sum up to and including bin k, from the cutoff kMin. -/
noncomputable def m7upto (psd : ℕ → ℝ) (f0 deltaF norm : ℝ)
    (kMin k : ℕ) : ℝ :=
  momSum psd f0 deltaF norm (-(7 / 3 : ℝ)) (List.range' kMin (k + 1 - kMin))

/-- The cumulative m5 sum up to and including bin k, from the cutoff kMin. -/
noncomputable def m5upto (psd : ℕ → ℝ) (f0 deltaF norm : ℝ)
    (kMin k : ℕ) : ℝ :=
  momSum psd f0 deltaF norm (-(5 / 3 : ℝ)) (List.range' kMin (k + 1 - kMin))

/-- The cumulative m3 sum up to and including bin k, from the cutoff kMin. -/
noncomputable def m3upto (psd : ℕ → ℝ) (f0 deltaF norm : ℝ)
    (kMin k : ℕ) : ℝ :=
  momSum psd f0 deltaF norm (-(1 : ℝ)) (List.range' kMin (k + 1 - kMin))

lemma setZeroIter_zero (m j : ℕ) :
    setZeroIter (fun _ => (0 : ℝ)) m j = 0 := by
  rw [setZeroIter_apply]
  split_ifs <;> rfl

lemma momSum_append (psd : ℕ → ℝ) (f0 deltaF norm e : ℝ) (l1 l2 : List ℕ) :
    momSum psd f0 deltaF norm e (l1 ++ l2) =
      momSum psd f0 deltaF norm e l1 + momSum psd f0 deltaF norm e l2 := by
  induction l1 with
  | nil => simp [momSum]
  | cons k l ih =>
    simp only [List.cons_append, momSum, List.append_eq, ih]
    ring

lemma momLoop_zero (psd : ℕ → ℝ) (f0 deltaF norm : ℝ) (kMin : ℕ) :
    momLoop psd f0 deltaF norm kMin 0 = momInit kMin := rfl

lemma momLoop_succ (psd : ℕ → ℝ) (f0 deltaF norm : ℝ) (kMin c : ℕ) :
    momLoop psd f0 deltaF norm kMin (c + 1) =
      momStep psd f0 deltaF norm (momLoop psd f0 deltaF norm kMin c)
        (kMin + c) := by
  unfold momLoop momentsOverBins
  rw [List.range'_1_concat, List.foldl_append]
  rfl

lemma momSum_range'_succ (psd : ℕ → ℝ) (f0 deltaF norm e : ℝ)
    (kMin c : ℕ) :
    momSum psd f0 deltaF norm e (List.range' kMin (c + 1)) =
      momSum psd f0 deltaF norm e (List.range' kMin c) +
        (if psd (kMin + c) = 0 then 0
          else (f0 + ((kMin + c : ℕ) : ℝ) * deltaF) ^ e /
            psd (kMin + c) * deltaF / norm) := by
  rw [List.range'_1_concat, momSum_append]
  simp [momSum]

lemma momLoop_sums (psd : ℕ → ℝ) (f0 deltaF norm : ℝ) (kMin : ℕ) :
    ∀ c,
      (momLoop psd f0 deltaF norm kMin c).m3 =
          momSum psd f0 deltaF norm (-(1 : ℝ)) (List.range' kMin c) ∧
        (momLoop psd f0 deltaF norm kMin c).m5 =
          momSum psd f0 deltaF norm (-(5 / 3 : ℝ)) (List.range' kMin c) ∧
        (momLoop psd f0 deltaF norm kMin c).m7 =
          momSum psd f0 deltaF norm (-(7 / 3 : ℝ)) (List.range' kMin c) := by
  intro c
  induction c with
  | zero =>
    refine ⟨rfl, rfl, rfl⟩
  | succ c ih =>
    rw [momLoop_succ]
    rw [momSum_range'_succ, momSum_range'_succ, momSum_range'_succ]
    by_cases hp : psd (kMin + c) = 0
    · rw [momStep, if_pos hp]
      rw [if_pos hp, if_pos hp, if_pos hp]
      exact ⟨by rw [ih.1]; ring, by rw [ih.2.1]; ring, by rw [ih.2.2]; ring⟩
    · rw [momStep, if_neg hp]
      rw [if_neg hp, if_neg hp, if_neg hp]
      refine ⟨?_, ?_, ?_⟩
      · show (momLoop psd f0 deltaF norm kMin c).m3 + _ = _
        rw [ih.1]
      · show (momLoop psd f0 deltaF norm kMin c).m5 + _ = _
        rw [ih.2.1]
      · show (momLoop psd f0 deltaF norm kMin c).m7 + _ = _
        rw [ih.2.2]

lemma momLoop_arrays (psd : ℕ → ℝ) (f0 deltaF norm : ℝ) (kMin : ℕ) :
    ∀ c j,
      ((kMin ≤ j ∧ j < kMin + c ∧ psd j ≠ 0) →
        (momLoop psd f0 deltaF norm kMin c).a11 j =
            1 / Real.sqrt (m7upto psd f0 deltaF norm kMin j) ∧
          (momLoop psd f0 deltaF norm kMin c).a22 j =
            1 / Real.sqrt (m3upto psd f0 deltaF norm kMin j -
              m5upto psd f0 deltaF norm kMin j *
                m5upto psd f0 deltaF norm kMin j /
                m7upto psd f0 deltaF norm kMin j) ∧
          (momLoop psd f0 deltaF norm kMin c).a21 j =
            -(m5upto psd f0 deltaF norm kMin j) /
              m7upto psd f0 deltaF norm kMin j *
              (momLoop psd f0 deltaF norm kMin c).a22 j) ∧
      (¬(kMin ≤ j ∧ j < kMin + c ∧ psd j ≠ 0) →
        (momLoop psd f0 deltaF norm kMin c).a11 j = 0 ∧
          (momLoop psd f0 deltaF norm kMin c).a21 j = 0 ∧
          (momLoop psd f0 deltaF norm kMin c).a22 j = 0) := by
  intro c
  induction c with
  | zero =>
    intro j
    constructor
    · rintro ⟨h1, h2, -⟩
      exact absurd h2 (by omega)
    · intro _
      exact ⟨setZeroIter_zero _ _, setZeroIter_zero _ _, setZeroIter_zero _ _⟩
  | succ c ih =>
    intro j
    rw [momLoop_succ]
    by_cases hp : psd (kMin + c) = 0
    · rw [momStep, if_pos hp]
      constructor
      · rintro ⟨h1, h2, h3⟩
        have hne : j ≠ kMin + c := by
          intro he
          rw [he] at h3
          exact h3 hp
        exact (ih j).1 ⟨h1, by omega, h3⟩
      · intro h
        refine (ih j).2 ?_
        rintro ⟨h1, h2, h3⟩
        exact h ⟨h1, by omega, h3⟩
    · constructor
      · rintro ⟨h1, h2, h3⟩
        rcases eq_or_ne j (kMin + c) with he | hne
        · subst he
          have e1 : kMin + c + 1 - kMin = c + 1 := by omega
          simp only [momStep, if_neg hp, Function.update_same]
          rw [m7upto, m5upto, m3upto, e1]
          rw [momSum_range'_succ, momSum_range'_succ, momSum_range'_succ]
          rw [if_neg hp, if_neg hp, if_neg hp]
          rw [(momLoop_sums psd f0 deltaF norm kMin c).1,
            (momLoop_sums psd f0 deltaF norm kMin c).2.1,
            (momLoop_sums psd f0 deltaF norm kMin c).2.2]
          exact ⟨rfl, rfl, rfl⟩
        · simp only [momStep, if_neg hp, Function.update_noteq hne]
          exact (ih j).1 ⟨h1, by omega, h3⟩
      · intro h
        have hne : j ≠ kMin + c := by
          intro he
          exact h ⟨by omega, by omega, by rw [he]; exact hp⟩
        simp only [momStep, if_neg hp, Function.update_noteq hne]
        refine (ih j).2 ?_
        rintro ⟨h1, h2, h3⟩
        exact h ⟨h1, by omega, h3⟩

lemma momLoop_arrays_nonneg (psd : ℕ → ℝ) (f0 deltaF norm : ℝ)
    (kMin c j : ℕ) :
    0 ≤ (momLoop psd f0 deltaF norm kMin c).a11 j ∧
      0 ≤ (momLoop psd f0 deltaF norm kMin c).a22 j := by
  by_cases h : kMin ≤ j ∧ j < kMin + c ∧ psd j ≠ 0
  · obtain ⟨e1, e2, e3⟩ := (momLoop_arrays psd f0 deltaF norm kMin c j).1 h
    rw [e1, e2]
    exact ⟨one_div_nonneg.mpr (Real.sqrt_nonneg _),
      one_div_nonneg.mpr (Real.sqrt_nonneg _)⟩
  · obtain ⟨e1, e2, e3⟩ := (momLoop_arrays psd f0 deltaF norm kMin c j).2 h
    rw [e1, e3]
    exact ⟨le_refl 0, le_refl 0⟩

lemma momentsOverBins_cons (psd : ℕ → ℝ) (f0 deltaF norm : ℝ) (k : ℕ)
    (t : List ℕ) (s : MomState) :
    momentsOverBins psd f0 deltaF norm (k :: t) s =
      momentsOverBins psd f0 deltaF norm t (momStep psd f0 deltaF norm s k) :=
  rfl

lemma momentsOverBins_filter_of_skip (psd : ℕ → ℝ) (f0 deltaF norm : ℝ)
    (b : ℕ) (hb : psd b = 0) :
    ∀ (l : List ℕ) (s : MomState),
      momentsOverBins psd f0 deltaF norm l s =
        momentsOverBins psd f0 deltaF norm (l.filter (fun j => j != b)) s := by
  intro l
  induction l with
  | nil => intro s; rfl
  | cons k t ih =>
    intro s
    rcases eq_or_ne k b with hk | hk
    · subst hk
      rw [momentsOverBins_cons]
      rw [show momStep psd f0 deltaF norm s k = s from by
        rw [momStep, if_pos hb]]
      rw [show (k :: t).filter (fun j => j != k) = t.filter (fun j => j != k)
        from by simp [List.filter_cons]]
      exact ih s
    · rw [momentsOverBins_cons]
      rw [show (k :: t).filter (fun j => j != b) =
          k :: t.filter (fun j => j != b) from by simp [List.filter_cons, hk]]
      rw [momentsOverBins_cons]
      exact ih _

/-- C4 (amended): for every accumulated bin k (inside [kMin, kMax), nonzero
PSD) the outputs satisfy a11[k] = 1/sqrt(m7[k]),
a22[k] = 1/sqrt(m3[k] - m5[k]^2/m7[k]) and a21[k] = -m5[k]/m7[k]*a22[k],
with m3, m5, m7 the cumulative noise-weighted frequency-power sums up to
bin k with weight deltaF/norm, norm = (1/4)*tSampling^2; a22[j]*a11[j] >= 0
at every bin j (the product is zero at bins where no accumulation has
occurred, such as zero-PSD bins); and all three arrays are zero below the
cutoff bin. -/
theorem momentVector_invariant (psd : ℕ → ℝ)
    (f0 deltaF fLower tSampling norm : ℝ) (kMin kMax : ℕ)
    (hkMin : kMin = Int.toNat (Int.floor ((fLower - f0) / deltaF)))
    (hkMax : kMax = Int.toNat (Int.floor ((tSampling / 2 - f0) / deltaF)))
    (hnorm : norm = 1 / 4 * (tSampling * tSampling))
    (k j l : ℕ) (hk1 : kMin ≤ k) (hk2 : k < kMax) (hpsd : psd k ≠ 0)
    (hl : l < kMin) :
    ((LALCreateMomentVector psd f0 deltaF fLower tSampling).a11 k =
        1 / Real.sqrt (m7upto psd f0 deltaF norm kMin k) ∧
      (LALCreateMomentVector psd f0 deltaF fLower tSampling).a22 k =
        1 / Real.sqrt (m3upto psd f0 deltaF norm kMin k -
          m5upto psd f0 deltaF norm kMin k *
            m5upto psd f0 deltaF norm kMin k /
            m7upto psd f0 deltaF norm kMin k) ∧
      (LALCreateMomentVector psd f0 deltaF fLower tSampling).a21 k =
        -(m5upto psd f0 deltaF norm kMin k) /
          m7upto psd f0 deltaF norm kMin k *
          (LALCreateMomentVector psd f0 deltaF fLower tSampling).a22 k) ∧
    0 ≤ (LALCreateMomentVector psd f0 deltaF fLower tSampling).a22 j *
      (LALCreateMomentVector psd f0 deltaF fLower tSampling).a11 j ∧
    ((LALCreateMomentVector psd f0 deltaF fLower tSampling).a11 l = 0 ∧
      (LALCreateMomentVector psd f0 deltaF fLower tSampling).a21 l = 0 ∧
      (LALCreateMomentVector psd f0 deltaF fLower tSampling).a22 l = 0) := by
  have hL : LALCreateMomentVector psd f0 deltaF fLower tSampling =
      momLoop psd f0 deltaF norm kMin (kMax - kMin) := by
    rw [LALCreateMomentVector, ← hkMin, ← hkMax, ← hnorm]
  rw [hL]
  refine ⟨(momLoop_arrays psd f0 deltaF norm kMin (kMax - kMin) k).1
      ⟨hk1, by omega, hpsd⟩, ?_, ?_⟩
  · obtain ⟨ha, hb⟩ := momLoop_arrays_nonneg psd f0 deltaF norm kMin
      (kMax - kMin) j
    exact mul_nonneg hb ha
  · refine (momLoop_arrays psd f0 deltaF norm kMin (kMax - kMin) l).2 ?_
    rintro ⟨h1, -, -⟩
    omega

/-- Witness for C4 (amended): flat unit PSD, f0 = 0, deltaF = 1, fLower = 1,
tSampling = 8 (kMin = 1, kMax = 4, norm = 16), k = 2, j = 3, l = 0. -/
theorem momentVector_invariant_witness :
    ((LALCreateMomentVector (fun _ => 1) 0 1 1 8).a11 2 =
        1 / Real.sqrt (m7upto (fun _ => 1) 0 1 (1 / 4 * (8 * 8)) 1 2) ∧
      (LALCreateMomentVector (fun _ => 1) 0 1 1 8).a22 2 =
        1 / Real.sqrt (m3upto (fun _ => 1) 0 1 (1 / 4 * (8 * 8)) 1 2 -
          m5upto (fun _ => 1) 0 1 (1 / 4 * (8 * 8)) 1 2 *
            m5upto (fun _ => 1) 0 1 (1 / 4 * (8 * 8)) 1 2 /
            m7upto (fun _ => 1) 0 1 (1 / 4 * (8 * 8)) 1 2) ∧
      (LALCreateMomentVector (fun _ => 1) 0 1 1 8).a21 2 =
        -(m5upto (fun _ => 1) 0 1 (1 / 4 * (8 * 8)) 1 2) /
          m7upto (fun _ => 1) 0 1 (1 / 4 * (8 * 8)) 1 2 *
          (LALCreateMomentVector (fun _ => 1) 0 1 1 8).a22 2) ∧
    0 ≤ (LALCreateMomentVector (fun _ => 1) 0 1 1 8).a22 3 *
      (LALCreateMomentVector (fun _ => 1) 0 1 1 8).a11 3 ∧
    ((LALCreateMomentVector (fun _ => 1) 0 1 1 8).a11 0 = 0 ∧
      (LALCreateMomentVector (fun _ => 1) 0 1 1 8).a21 0 = 0 ∧
      (LALCreateMomentVector (fun _ => 1) 0 1 1 8).a22 0 = 0) :=
  momentVector_invariant (fun _ => 1) 0 1 1 8 (1 / 4 * (8 * 8)) 1 4
    (by norm_num <;> decide) (by norm_num <;> decide) rfl
    2 3 0 (by norm_num) (by norm_num) (by norm_num) (by norm_num)

/-- C4 counterexample: with f0 = 0, deltaF = 1, fLower = 1, tSampling = 8
(kMin = 1, kMax = 4) and a PSD that vanishes at bin 2 and is one elsewhere,
bin 2 lies past the cutoff but is skipped, so a22[2]*a11[2] = 0 and the
claimed strict positivity a22[k]*a11[k] > 0 fails. -/
theorem momentVector_product_counterexample :
    ¬(0 < (LALCreateMomentVector (fun k => if k = 2 then 0 else 1)
          0 1 1 8).a22 2 *
        (LALCreateMomentVector (fun k => if k = 2 then 0 else 1)
          0 1 1 8).a11 2) := by
  have h1 : (Int.floor (((1 : ℝ) - 0) / 1)).toNat = 1 := by
    norm_num <;> decide
  have h2 : (Int.floor (((8 : ℝ) / 2 - 0) / 1)).toNat = 4 := by
    norm_num <;> decide
  have hL : LALCreateMomentVector (fun k => if k = 2 then 0 else 1) 0 1 1 8 =
      momLoop (fun k => if k = 2 then 0 else 1) 0 1 (1 / 4 * (8 * 8)) 1 3 := by
    rw [LALCreateMomentVector, h1, h2]
  rw [hL]
  obtain ⟨e1, e2, e3⟩ :=
    (momLoop_arrays (fun k => if k = 2 then 0 else 1) 0 1 (1 / 4 * (8 * 8))
      1 3 2).2 (by rintro ⟨-, -, h3⟩; exact h3 (by norm_num))
  rw [e1, e3]
  norm_num

/-- C6: inside the accumulation range a zero-power bin b is skipped: the
running sums and arrays are unchanged by the step at b (the step is the
identity), the whole computation coincides with the computation in which
bin b is omitted from the bin list (so the zero-power bin contributes
nothing to any later bin's value), and the a11/a21/a22 entries at b remain
zero. -/
theorem momentVector_skips_zero_bin (psd : ℕ → ℝ)
    (f0 deltaF fLower tSampling norm : ℝ) (kMin kMax b : ℕ)
    (hkMin : kMin = Int.toNat (Int.floor ((fLower - f0) / deltaF)))
    (hkMax : kMax = Int.toNat (Int.floor ((tSampling / 2 - f0) / deltaF)))
    (hnorm : norm = 1 / 4 * (tSampling * tSampling))
    (hb1 : kMin ≤ b) (hb2 : b < kMax) (hpsd : psd b = 0) :
    (∀ s, momStep psd f0 deltaF norm s b = s) ∧
    LALCreateMomentVector psd f0 deltaF fLower tSampling =
      momentsOverBins psd f0 deltaF norm
        ((List.range' kMin (kMax - kMin)).filter (fun j => j != b))
        (momInit kMin) ∧
    ((LALCreateMomentVector psd f0 deltaF fLower tSampling).a11 b = 0 ∧
      (LALCreateMomentVector psd f0 deltaF fLower tSampling).a21 b = 0 ∧
      (LALCreateMomentVector psd f0 deltaF fLower tSampling).a22 b = 0) := by
  have hL : LALCreateMomentVector psd f0 deltaF fLower tSampling =
      momLoop psd f0 deltaF norm kMin (kMax - kMin) := by
    rw [LALCreateMomentVector, ← hkMin, ← hkMax, ← hnorm]
  refine ⟨fun s => by rw [momStep, if_pos hpsd], ?_, ?_⟩
  · rw [hL, momLoop]
    exact momentsOverBins_filter_of_skip psd f0 deltaF norm b hpsd _ _
  · rw [hL]
    refine (momLoop_arrays psd f0 deltaF norm kMin (kMax - kMin) b).2 ?_
    rintro ⟨-, -, h3⟩
    exact h3 hpsd

/-- Witness for C6: PSD vanishing at bin 2, f0 = 0, deltaF = 1, fLower = 1,
tSampling = 8 (kMin = 1, kMax = 4, norm = 16), zero bin b = 2. -/
theorem momentVector_skips_zero_bin_witness :
    (∀ s, momStep (fun k => if k = 2 then 0 else 1) 0 1 (1 / 4 * (8 * 8))
        s 2 = s) ∧
    LALCreateMomentVector (fun k => if k = 2 then 0 else 1) 0 1 1 8 =
      momentsOverBins (fun k => if k = 2 then 0 else 1) 0 1
        (1 / 4 * (8 * 8))
        ((List.range' 1 (4 - 1)).filter (fun j => j != 2)) (momInit 1) ∧
    ((LALCreateMomentVector (fun k => if k = 2 then 0 else 1)
          0 1 1 8).a11 2 = 0 ∧
      (LALCreateMomentVector (fun k => if k = 2 then 0 else 1)
          0 1 1 8).a21 2 = 0 ∧
      (LALCreateMomentVector (fun k => if k = 2 then 0 else 1)
          0 1 1 8).a22 2 = 0) :=
  momentVector_skips_zero_bin (fun k => if k = 2 then 0 else 1) 0 1 1 8
    (1 / 4 * (8 * 8)) 1 4 2 (by norm_num <;> decide) (by norm_num <;> decide)
    rfl (by norm_num) (by norm_num) (by norm_num)

/-- C7 counterexample: with f0 = 0, deltaF = 1, fLower = 10 and
tSampling = 4 the cutoff bin kMin = 10 exceeds the Nyquist bin kMax = 2,
yet LALCreateMomentVector performs no check and returns normally with all
moments and all three arrays identically zero: the function contains no
invalid-configuration failure path. -/
theorem momentVector_no_failure_counterexample :
    (LALCreateMomentVector (fun _ => 1) 0 1 10 4).m3 = 0 ∧
    (LALCreateMomentVector (fun _ => 1) 0 1 10 4).m5 = 0 ∧
    (LALCreateMomentVector (fun _ => 1) 0 1 10 4).m7 = 0 ∧
    (LALCreateMomentVector (fun _ => 1) 0 1 10 4).a11 = (fun _ => (0 : ℝ)) ∧
    (LALCreateMomentVector (fun _ => 1) 0 1 10 4).a21 = (fun _ => (0 : ℝ)) ∧
    (LALCreateMomentVector (fun _ => 1) 0 1 10 4).a22 = (fun _ => (0 : ℝ)) := by
  have h1 : (Int.floor (((10 : ℝ) - 0) / 1)).toNat = 10 := by
    norm_num <;> decide
  have h2 : (Int.floor (((4 : ℝ) / 2 - 0) / 1)).toNat = 2 := by
    norm_num <;> decide
  have hL : LALCreateMomentVector (fun _ => (1 : ℝ)) 0 1 10 4 = momInit 10 := by
    rw [LALCreateMomentVector, h1, h2]
    rw [show (2 : ℕ) - 10 = 0 from rfl]
    exact momLoop_zero _ _ _ _ _
  rw [hL]
  refine ⟨rfl, rfl, rfl, ?_, ?_, ?_⟩ <;>
    exact funext fun j => setZeroIter_zero _ _

/-- C7 (amended): when the computed cutoff bin kMin is at least kMax (fLow
past the Nyquist bin), LALCreateMomentVector performs no accumulation and
returns normally the initial state: zero moments and all-zero arrays; no
invalid-configuration failure is reported. -/
theorem momentVector_empty_range (psd : ℕ → ℝ)
    (f0 deltaF fLower tSampling : ℝ) (kMin kMax : ℕ)
    (hkMin : kMin = Int.toNat (Int.floor ((fLower - f0) / deltaF)))
    (hkMax : kMax = Int.toNat (Int.floor ((tSampling / 2 - f0) / deltaF)))
    (hle : kMax ≤ kMin) :
    LALCreateMomentVector psd f0 deltaF fLower tSampling = momInit kMin ∧
    (∀ j, (LALCreateMomentVector psd f0 deltaF fLower tSampling).a11 j = 0 ∧
      (LALCreateMomentVector psd f0 deltaF fLower tSampling).a21 j = 0 ∧
      (LALCreateMomentVector psd f0 deltaF fLower tSampling).a22 j = 0) ∧
    (LALCreateMomentVector psd f0 deltaF fLower tSampling).m3 = 0 ∧
    (LALCreateMomentVector psd f0 deltaF fLower tSampling).m5 = 0 ∧
    (LALCreateMomentVector psd f0 deltaF fLower tSampling).m7 = 0 := by
  have hL : LALCreateMomentVector psd f0 deltaF fLower tSampling =
      momLoop psd f0 deltaF (1 / 4 * (tSampling * tSampling)) kMin
        (kMax - kMin) := by
    rw [LALCreateMomentVector, ← hkMin, ← hkMax]
  have h0 : kMax - kMin = 0 := by omega
  rw [hL, h0, momLoop_zero]
  exact ⟨rfl,
    fun j => ⟨setZeroIter_zero _ _, setZeroIter_zero _ _, setZeroIter_zero _ _⟩,
    rfl, rfl, rfl⟩

/-- Witness for C7 (amended) at f0 = 0, deltaF = 1, fLower = 9,
tSampling = 4 (kMin = 9, kMax = 2). -/
theorem momentVector_empty_range_witness :
    LALCreateMomentVector (fun _ => 1) 0 1 9 4 = momInit 9 ∧
    (LALCreateMomentVector (fun _ => 1) 0 1 9 4).a11 5 = 0 :=
  ⟨(momentVector_empty_range (fun _ => 1) 0 1 9 4 9 2
      (by norm_num <;> decide) (by norm_num <;> decide) (by norm_num)).1,
    ((momentVector_empty_range (fun _ => 1) 0 1 9 4 9 2
      (by norm_num <;> decide) (by norm_num <;> decide) (by norm_num)).2.1
        5).1⟩
